import Mathlib

/-!
# Verification of the happy-dom core against its specification

Shallow embedding of the sampled happy-dom sources:

* `src/packages/happy-dom/src/storage/Storage.ts` (the `Storage` class and
  its `Proxy` traps),
* `src/packages/happy-dom/src/utilities/StringUtility.ts` (memoized ASCII
  case conversion),
* `src/packages/happy-dom/src/nodes/element/LazyNamedNodeMapData.ts`,
  `src/packages/happy-dom/src/nodes/node/NodeCache.ts`,
  `src/packages/happy-dom/src/event/EventListenerContainer.ts` (lazily
  allocated containers),
* `WindowContextClassExtender` / `createWindowAwareClass` (the
  window-aware class proxy).

JavaScript plain objects (used as the `Storage` backing store) are embedded
as insertion-ordered association lists together with `objectKeys`, which
reproduces the ECMAScript own-property enumeration order: canonical
array-index keys in ascending numeric order first, then the remaining
string keys in first-insertion order.  JavaScript `Map`s are embedded as
association lists in insertion order.  Strings iterated per code point
(`for..of`) are embedded as `List Char`.
-/

/-- First-match lookup in an association list, the behavior of reading a
property from a JS object or `Map.get`. -/
def assocLookup {α β : Type} [DecidableEq α] : List (α × β) → α → Option β
  | [], _ => none
  | (k, v) :: rest, a => if k = a then some v else assocLookup rest a

/-- Upsert into an association list: an existing key keeps its position and
gets the new value (JS assignment to an existing property), a new key is
appended at the end (JS property creation order). -/
def assocUpsert {α β : Type} [DecidableEq α] : List (α × β) → α → β → List (α × β)
  | [], k, v => [(k, v)]
  | (k', v') :: rest, k, v =>
    if k' = k then (k, v) :: rest else (k', v') :: assocUpsert rest k v

/-- Delete a key from an association list (JS `delete obj[k]` /
`Map.delete`). -/
def assocDelete {α β : Type} [DecidableEq α] : List (α × β) → α → List (α × β)
  | [], _ => []
  | (k', v') :: rest, k =>
    if k' = k then rest else (k', v') :: assocDelete rest k

/-! ## Storage (`src/packages/happy-dom/src/storage/Storage.ts`)

The internal data of a `Storage` instance is a plain JS object
`{ [key: string]: string }`.  Its own-property enumeration order (what
`Object.keys` returns) puts canonical array-index keys first, sorted
numerically ascending, followed by the remaining string keys in the order
they were first created. -/

/-- The numeric value of a digit string. -/
def digitsToNat (s : String) : Nat :=
  s.toList.foldl (fun acc c => acc * 10 + (c.toNat - 48)) 0

/-- A string is a canonical array index in the ECMAScript sense: the
decimal representation, without leading zeros, of an integer below
`2 ^ 32 - 1`. -/
def isCanonicalIndex (s : String) : Bool :=
  s.length > 0 && s.toList.all Char.isDigit &&
    (s = "0" || s.front ≠ '0') && (digitsToNat s < 2 ^ 32 - 1)

/-- Insert a canonical-index key into a list sorted ascending by numeric
value. -/
def insertIndexAsc (k : String) : List String → List String
  | [] => [k]
  | k' :: rest =>
    if digitsToNat k ≤ digitsToNat k' then k :: k' :: rest
    else k' :: insertIndexAsc k rest

/-- Sort canonical-index keys ascending by numeric value. -/
def sortIndexKeys : List String → List String
  | [] => []
  | k :: rest => insertIndexAsc k (sortIndexKeys rest)

/-- `Object.keys` on a plain JS object: canonical array-index keys sorted
ascending by numeric value, then all other keys in first-insertion
order. -/
def objectKeys (data : List (String × String)) : List String :=
  let ks := data.map Prod.fst
  sortIndexKeys (ks.filter (fun k => isCanonicalIndex k)) ++
    ks.filter (fun k => !isCanonicalIndex k)

/-- `Storage.length`: `Object.keys(this[PropertySymbol.data]).length`. -/
def storageLength (data : List (String × String)) : Nat :=
  (objectKeys data).length

/-- `Storage.key(index)`: `Object.keys(this[PropertySymbol.data])[index]`,
returning the name when defined and `null` (here `none`) otherwise.  A JS
array read at a negative or too-large index yields `undefined`. -/
def storageKey (data : List (String × String)) (index : Int) : Option String :=
  if index < 0 then none else (objectKeys data).get? index.toNat

/-- The property names every plain JS object inherits from
`Object.prototype`; a read of one of them through the prototype chain
yields the inherited member (a function, or the prototype object for
`__proto__`), which is not `undefined`. -/
def objectProtoMembers : List String :=
  ["constructor", "hasOwnProperty", "isPrototypeOf", "propertyIsEnumerable",
   "toLocaleString", "toString", "valueOf", "__defineGetter__",
   "__defineSetter__", "__lookupGetter__", "__lookupSetter__", "__proto__"]

/-- A value read out of the plain data object: a stored string, or a
member inherited from `Object.prototype`. -/
inductive JsValue : Type
  | str (v : String)
  | protoMember (m : String)
deriving DecidableEq

/-- `Storage.setItem(name, item)`:
`this[PropertySymbol.data][name] = String(item)` — a plain-object
assignment.  The key `'__proto__'` hits the object's inherited
`__proto__` accessor, whose setter ignores a string value, so no entry is
created; every other inherited name is a writable data property, so
assignment shadows it with an own entry as usual. -/
def storageSetItem (data : List (String × String)) (name item : String) :
    List (String × String) :=
  if name = "__proto__" then data else assocUpsert data name item

/-- `Storage.getItem(name)`:
`data[name] !== undefined ? data[name] : null`.  The read
`data[name]` falls through the plain object's prototype chain: an own
entry yields its stored string; otherwise a name inherited from
`Object.prototype` yields the inherited member (not `undefined`, hence
not `null`-ed); otherwise the read is `undefined` and `null` (`none`) is
returned. -/
def storageGetItem (data : List (String × String)) (name : String) :
    Option JsValue :=
  match assocLookup data name with
  | some v => some (.str v)
  | none =>
    if name ∈ objectProtoMembers then some (.protoMember name) else none

/-- `Storage.removeItem(name)`: `delete this[PropertySymbol.data][name]`. -/
def storageRemoveItem (data : List (String × String)) (name : String) :
    List (String × String) :=
  assocDelete data name

/-- `Storage.clear()`: deletes every key of the data object. -/
def storageClear (_data : List (String × String)) : List (String × String) :=
  []

/-- The own members of a `Storage` target that `property in target` finds
for the fixed string names the spec lists (the `length` accessor and the
five methods, all on `Storage.prototype`). -/
inductive StorageMember : Type
  | length
  | key
  | getItem
  | setItem
  | removeItem
  | clear
deriving DecidableEq

/-- Resolving a string property name against the `Storage` target's fixed
own members (the `property in target` test of the proxy traps, restricted
to the six fixed names the spec lists). -/
def ownMemberOf (p : String) : Option StorageMember :=
  if p = "length" then some .length
  else if p = "key" then some .key
  else if p = "getItem" then some .getItem
  else if p = "setItem" then some .setItem
  else if p = "removeItem" then some .removeItem
  else if p = "clear" then some .clear
  else none

/-- Observable outcome of the proxy `get` trap. -/
inductive ProxyGetResult : Type
  | ownValue (n : Nat)
  | boundMethod (m : StorageMember)
  | dataValue (v : String)
  | undefinedResult
deriving DecidableEq

/-- The proxy `get` trap of the `Storage` constructor: a property found on
the target resolves to the target's own behavior (the `length` getter's
value, or the bound method); otherwise a key present in the data object
yields its stored value; otherwise `undefined`. -/
def storageProxyGet (data : List (String × String)) (p : String) :
    ProxyGetResult :=
  match ownMemberOf p with
  | some .length => .ownValue (storageLength data)
  | some m => .boundMethod m
  | none =>
    match assocLookup data p with
    | some v => .dataValue v
    | none => .undefinedResult

/-- The proxy `set` trap of the `Storage` constructor: a property found on
the target is not written (the trap returns `true` without touching the
data object); any other string property is coerced and stored in the data
object.  Returns the new data object and the trap's boolean result. -/
def storageProxySet (data : List (String × String)) (p v : String) :
    List (String × String) × Bool :=
  if (ownMemberOf p).isSome then (data, true)
  else (assocUpsert data p v, true)

/-! ## StringUtility (`src/packages/happy-dom/src/utilities/StringUtility.ts`)

`asciiLowerCase` / `asciiUpperCase` iterate the input per code point
(`for..of`), mapping codes 65..90 up by 32 (respectively 97..122 down by
32); results are memoized in module-level `Map`s with LRU move-to-end on
hit and eviction of the oldest `CACHE_EVICT_COUNT` entries once the size
reaches `CACHE_MAX_SIZE`. -/

def CACHE_MAX_SIZE : Nat := 10000

def CACHE_EVICT_COUNT : Nat := 1000

/-- The per-code-point transformation of the `asciiLowerCase` loop: a code
in 65..90 becomes the code 32 higher, everything else is unchanged.  (For
an astral code point the source reads `charCodeAt(0)`, a surrogate in
0xD800..0xDBFF, never in 65..90, so the character passes through
unchanged, as here.) -/
def asciiLowerChar (c : Char) : Char :=
  if 65 ≤ c.toNat ∧ c.toNat ≤ 90 then Char.ofNat (c.toNat + 32) else c

/-- The per-code-point transformation of the `asciiUpperCase` loop. -/
def asciiUpperChar (c : Char) : Char :=
  if 97 ≤ c.toNat ∧ c.toNat ≤ 122 then Char.ofNat (c.toNat - 32) else c

/-- A memoization cache (`ASCII_LOWER_CASE_CACHE` /
`ASCII_UPPER_CASE_CACHE`): a JS `Map` in insertion order, oldest entry
first. -/
abbrev CaseCache : Type := List (List Char × List Char)

/-- `evictOldest(cache, count)`: deletes the first `count` keys in
iteration (insertion) order. -/
def evictOldest (cache : CaseCache) (count : Nat) : CaseCache :=
  List.drop count cache

/-- One call of a memoized case-conversion function with per-character map
`f`: on a hit the cached value is returned and moved to the end
(delete + set); on a miss the value is computed, the oldest
`CACHE_EVICT_COUNT` entries are evicted if the cache has reached
`CACHE_MAX_SIZE`, and the new pair is inserted at the end.  Returns the
result and the updated cache. -/
def memoCaseRun (f : Char → Char) (cache : CaseCache) (text : List Char) :
    List Char × CaseCache :=
  match assocLookup cache text with
  | some cached => (cached, assocDelete cache text ++ [(text, cached)])
  | none =>
    let newText := text.map f
    let cache' :=
      if CACHE_MAX_SIZE ≤ cache.length then evictOldest cache CACHE_EVICT_COUNT
      else cache
    (newText, cache' ++ [(text, newText)])

/-- `StringUtility.asciiLowerCase` acting on an explicit cache state. -/
def asciiLowerCase (cache : CaseCache) (text : List Char) :
    List Char × CaseCache :=
  memoCaseRun asciiLowerChar cache text

/-- `StringUtility.asciiUpperCase` acting on an explicit cache state. -/
def asciiUpperCase (cache : CaseCache) (text : List Char) :
    List Char × CaseCache :=
  memoCaseRun asciiUpperChar cache text

/-- Replay a history of calls against a memoized function, starting from a
given cache state, keeping only the final cache. -/
def memoCaseHistory (f : Char → Char) : List (List Char) → CaseCache → CaseCache
  | [], cache => cache
  | t :: rest, cache => memoCaseHistory f rest (memoCaseRun f cache t).2

/-! ## The window-aware class proxy (`createWindowAwareClass`)

A shared implementation class is represented by the transient context
attribute on its prototype (`target.prototype[PropertySymbol.window]`,
an `Option W`: `none` when the property is absent) plus the behavior of
its constructor.  The constructor may read the prototype's window during
construction and may raise (`Except`). -/

/-- A window-scoped proxy produced by `createWindowAwareClass`: it wraps
the shared implementation for one window, with the `setStaticWindow`
flag. -/
structure WindowProxy (W : Type) : Type where
  window : W
  setStaticWindow : Bool
deriving DecidableEq

/-- An instance returned by the proxy's `construct` trap: the window
stamped directly on the instance, the `constructor` property redirected to
the proxy, and the state the underlying implementation constructor
built. -/
structure BoundInstance (W I : Type) : Type where
  windowAttr : W
  constructorRef : WindowProxy W
  inner : I
deriving DecidableEq

/-- The `finally` block of the `construct` trap: restore the prototype's
window attribute — delete it when it was absent (`undefined`) before, set
it back otherwise. -/
def restoreProto {W : Type} (originalWindow : Option W) : Option W :=
  match originalWindow with
  | none => none
  | some w => some w

/-- The `construct` trap of `createWindowAwareClass`: record the original
prototype window, set the proxy's window on the prototype, run the
implementation constructor (which sees the prototype's new window), then
on success stamp the window and the proxy on the instance; in all cases
restore the prototype's window in `finally` before returning or
propagating the error.  Returns the outcome together with the prototype's
final window attribute. -/
def construct {W I E : Type} (ctor : Option W → Except E I)
    (p : WindowProxy W) (protoWindow : Option W) :
    Except E (BoundInstance W I) × Option W :=
  let originalWindow := protoWindow
  let duringConstruction : Option W := some p.window
  match ctor duringConstruction with
  | .ok inner =>
    (.ok { windowAttr := p.window, constructorRef := p, inner := inner },
      restoreProto originalWindow)
  | .error e => (.error e, restoreProto originalWindow)

/-- The `get` trap of `createWindowAwareClass`, read of the window symbol
property on the proxied class: with `setStaticWindow` the proxy's own
window is returned; otherwise the read falls through to the shared
class's own static state (`Reflect.get`). -/
def proxyStaticWindowGet {W : Type} (p : WindowProxy W)
    (sharedStatic : Option W) : Option W :=
  if p.setStaticWindow then some p.window else sharedStatic

/-! ## Lazily-allocated containers

`LazyNamedNodeMapData` (attribute store), `NodeCache` (query caches) and
`LazyListenerMap` / `LazyOptionsMap` (listener containers).  A nullable
`Map` field is an `Option` of an association list; `none` is the absent
(`null`) state. -/

/-- `LazyNamedNodeMapData`
(`src/packages/happy-dom/src/nodes/element/LazyNamedNodeMapData.ts`): the
three nullable views over an element's attributes, generic in the
attribute type.  `itemsByNamespaceURI` is keyed by a namespace key,
`itemsByName` maps a local name to a bucket of attributes, `items` is
keyed by qualified name. -/
structure LazyNamedNodeMapData (K A : Type) : Type where
  itemsByNamespaceURI : Option (List (K × A))
  itemsByName : Option (List (String × List A))
  items : Option (List (String × A))
deriving DecidableEq

/-- A fresh `LazyNamedNodeMapData`: all three fields start `null`. -/
def LazyNamedNodeMapData.empty {K A : Type} : LazyNamedNodeMapData K A :=
  { itemsByNamespaceURI := none, itemsByName := none, items := none }

/-- `LazyNamedNodeMapData.clear()`: each non-null map is cleared and the
field is set back to `null`. -/
def LazyNamedNodeMapData.clear {K A : Type} (d : LazyNamedNodeMapData K A) :
    LazyNamedNodeMapData K A :=
  { itemsByNamespaceURI :=
      match d.itemsByNamespaceURI with
      | none => none
      | some _ => none
    itemsByName :=
      match d.itemsByName with
      | none => none
      | some _ => none
    items :=
      match d.items with
      | none => none
      | some _ => none }

/-- A query-cache entry (`ICachedQuerySelectorResult` and friends): the
`result` field is nullable. -/
structure CacheEntry (R : Type) : Type where
  result : Option R
deriving DecidableEq

/-- `NodeCache` (`src/packages/happy-dom/src/nodes/node/NodeCache.ts`):
seven nullable `Map` fields plus the nullable `computedStyle` entry,
generic in the result types (the source's `matches` field is named
`matchesMap` here because `matches` is reserved in Lean). -/
structure NodeCache (R : Type) : Type where
  querySelector : Option (List (String × CacheEntry R))
  querySelectorAll : Option (List (String × CacheEntry R))
  matchesMap : Option (List (String × CacheEntry R))
  elementsByTagName : Option (List (String × CacheEntry R))
  elementsByTagNameNS : Option (List (String × CacheEntry R))
  elementByTagName : Option (List (String × CacheEntry R))
  elementById : Option (List (String × CacheEntry R))
  computedStyle : Option (CacheEntry R)
deriving DecidableEq

/-- The per-map loop of `NodeCache.clear`: null out each entry's `result`
(the map itself is discarded right after). -/
def clearEntryResults {R : Type} (m : List (String × CacheEntry R)) :
    List (String × CacheEntry R) :=
  m.map (fun e => (e.1, { result := none }))

/-- One field's worth of `NodeCache.clear`: when the map is non-null, null
out every entry's `result` and set the field to `null`. -/
def clearCacheField {R : Type} (f : Option (List (String × CacheEntry R))) :
    Option (List (String × CacheEntry R)) :=
  match f with
  | none => none
  | some m =>
    let _ := clearEntryResults m
    none

/-- `NodeCache.clear()`: every non-null map has its entries' results
nulled and is then set to `null`; `computedStyle` is set to `null`. -/
def NodeCache.clear {R : Type} (c : NodeCache R) : NodeCache R :=
  { querySelector := clearCacheField c.querySelector
    querySelectorAll := clearCacheField c.querySelectorAll
    matchesMap := clearCacheField c.matchesMap
    elementsByTagName := clearCacheField c.elementsByTagName
    elementsByTagNameNS := clearCacheField c.elementsByTagNameNS
    elementByTagName := clearCacheField c.elementByTagName
    elementById := clearCacheField c.elementById
    computedStyle := none }

/-- `LazyListenerMap`
(`src/packages/happy-dom/src/event/EventListenerContainer.ts`): the two
nullable listener maps of an event target, generic in the listener
type. -/
structure LazyListenerMap (L : Type) : Type where
  capturing : Option (List (String × List L))
  bubbling : Option (List (String × List L))
deriving DecidableEq

/-- `LazyListenerMap.clear()`: each non-null map has its contents cleared
(`Map.clear`), but the field keeps pointing at the now-empty map — it is
not set back to `null`. -/
def LazyListenerMap.clear {L : Type} (m : LazyListenerMap L) :
    LazyListenerMap L :=
  { capturing :=
      match m.capturing with
      | none => none
      | some _ => some []
    bubbling :=
      match m.bubbling with
      | none => none
      | some _ => some [] }

/-! ## Attribute-store operations over the three views

The `NamedNodeMap` code that performs `setAttribute` / `removeAttribute`
over a `LazyNamedNodeMapData` is not part of the sampled sources; only the
data container is.  The operations below are modelled from the spec
(§4.2): an upsert touches all three views atomically, a removal removes
the attribute's entries from all three views atomically, and reads
materialize the lazily-created maps. -/

/-- An attribute record: namespace URI (the absent namespace modelled as
`""`), qualified name, local name and value. -/
structure AttrRec : Type where
  namespaceURI : String
  qualifiedName : String
  localName : String
  value : String
deriving DecidableEq

/-- The key of an attribute in the by-namespace-URI view: the pair of its
namespace URI and its qualified name (a per-attribute key, so that several
attributes may share one namespace URI). -/
def nsKey (a : AttrRec) : String × String :=
  (a.namespaceURI, a.qualifiedName)

/-- An attribute store state: a `LazyNamedNodeMapData` whose namespace
view is keyed by `nsKey`. -/
abbrev AttrStore : Type := LazyNamedNodeMapData (String × String) AttrRec

/-- Drop from every bucket of the by-local-name view each attribute whose
qualified name is `q`. -/
def bucketsRemove (q : String) (m : List (String × List AttrRec)) :
    List (String × List AttrRec) :=
  m.map (fun b => (b.1, b.2.filter (fun a => a.qualifiedName ≠ q)))

/-- Append an attribute to the bucket of its local name, creating the
bucket when absent. -/
def bucketsAdd (a : AttrRec) : List (String × List AttrRec) →
    List (String × List AttrRec)
  | [] => [(a.localName, [a])]
  | b :: rest =>
    if b.1 = a.localName then (b.1, b.2 ++ [a]) :: rest
    else b :: bucketsAdd a rest

/-- Modelled from the spec: `removeAttribute` over the three views of a
`LazyNamedNodeMapData` — the entries of the attribute with qualified name
`q` are removed from the qualified-name view, from its local-name bucket
and from the by-namespace-URI view atomically (the `NamedNodeMap` removal
code is not among the sampled sources). -/
def attrRemove (q : String) (s : AttrStore) : AttrStore :=
  { itemsByNamespaceURI :=
      s.itemsByNamespaceURI.map (fun m => m.filter (fun e => e.2.qualifiedName ≠ q))
    itemsByName := s.itemsByName.map (bucketsRemove q)
    items := s.items.map (fun m => m.filter (fun e => e.1 ≠ q)) }

/-- Modelled from the spec: `setAttribute` over the three views of a
`LazyNamedNodeMapData` — any previous entries for the qualified name are
removed, then the attribute is inserted into all three views atomically,
materializing each lazily-created map (the `NamedNodeMap` upsert code is
not among the sampled sources). -/
def attrSet (a : AttrRec) (s : AttrStore) : AttrStore :=
  let s' := attrRemove a.qualifiedName s
  { itemsByNamespaceURI :=
      some (s'.itemsByNamespaceURI.getD [] ++ [(nsKey a, a)])
    itemsByName := some (bucketsAdd a (s'.itemsByName.getD []))
    items := some (s'.items.getD [] ++ [(a.qualifiedName, a)]) }

/-- A step of an attribute-mutation history. -/
inductive AttrOp : Type
  | set (a : AttrRec)
  | remove (q : String)
  | clear

/-- Run a history of attribute operations over a store. -/
def applyAttrOps : List AttrOp → AttrStore → AttrStore
  | [], s => s
  | .set a :: rest, s => applyAttrOps rest (attrSet a s)
  | .remove q :: rest, s => applyAttrOps rest (attrRemove q s)
  | .clear :: rest, s => applyAttrOps rest (LazyNamedNodeMapData.clear s)

/-- A qualified name is present in the qualified-name view. -/
def presentInItems (q : String) (s : AttrStore) : Prop :=
  ∃ e ∈ s.items.getD [], e.1 = q

/-- A corresponding entry exists in the by-local-name view. -/
def presentInByName (q : String) (s : AttrStore) : Prop :=
  ∃ b ∈ s.itemsByName.getD [], ∃ a ∈ b.2, a.qualifiedName = q

/-- A corresponding entry exists in the by-namespace-URI view. -/
def presentInByNamespaceURI (q : String) (s : AttrStore) : Prop :=
  ∃ e ∈ s.itemsByNamespaceURI.getD [], e.2.qualifiedName = q

/-- The three-view synchronization invariant of the attribute store. -/
def AttrStoreInv (s : AttrStore) : Prop :=
  ∀ q : String,
    presentInItems q s ↔ presentInByName q s ∧ presentInByNamespaceURI q s

/-! ## Helper lemmas -/

theorem assocLookup_assocUpsert_self {α β : Type} [DecidableEq α]
    (l : List (α × β)) (k : α) (v : β) :
    assocLookup (assocUpsert l k v) k = some v := by
  induction l with
  | nil => simp [assocUpsert, assocLookup]
  | cons hd tl ih =>
    by_cases h : hd.1 = k
    · simp [assocUpsert, assocLookup, h]
    · simp [assocUpsert, assocLookup, h, ih]

theorem length_insertIndexAsc (k : String) (l : List String) :
    (insertIndexAsc k l).length = l.length + 1 := by
  induction l with
  | nil => simp [insertIndexAsc]
  | cons hd tl ih =>
    by_cases h : digitsToNat k ≤ digitsToNat hd <;>
      simp [insertIndexAsc, h, ih]

theorem length_sortIndexKeys (l : List String) :
    (sortIndexKeys l).length = l.length := by
  induction l with
  | nil => rfl
  | cons hd tl ih => simp [sortIndexKeys, length_insertIndexAsc, ih]

theorem length_filter_add_length_filter_not {α : Type} (p : α → Bool)
    (l : List α) :
    (l.filter p).length + (l.filter (fun a => !p a)).length = l.length := by
  induction l with
  | nil => rfl
  | cons hd tl ih =>
    by_cases h : p hd <;> simp [List.filter, h] <;> omega

theorem length_objectKeys (d : List (String × String)) :
    (objectKeys d).length = d.length := by
  unfold objectKeys
  rw [List.length_append, length_sortIndexKeys,
    length_filter_add_length_filter_not]
  simp

/-! ## Claims about the window-aware class proxy -/

/-- C1: for every shared class bound to a window and every constructor
invocation through the window-aware proxy — whether the underlying
constructor returns normally or raises — after the invocation the shared
prototype's context attribute equals its value immediately before the
invocation began (restored, or removed when it was absent); on the error
path the `finally` restoration happens before the error is handed back to
the caller. -/
theorem construct_restores_proto_window {W I E : Type}
    (ctor : Option W → Except E I) (p : WindowProxy W) (s : Option W) :
    (construct ctor p s).2 = s := by
  cases hc : ctor (some p.window) <;> cases s <;>
    simp [construct, restoreProto, hc]

/-- C2: constructing through `W1`'s window-aware proxy and then through
`W2`'s proxy (the `setStaticWindow` flag off, as for the shared node
classes) yields a first instance whose context attribute is `W1` and a
second whose context attribute is `W2`; each instance's reported
constructor is the proxy that built it; and, the transient context
attribute being absent initially, it is again absent after both
constructions complete. -/
theorem construct_two_windows_context_identity {W I E : Type}
    (ctor : Option W → Except E I) (w1 w2 : W) (inner1 inner2 : I)
    (hc1 : ctor (some w1) = .ok inner1)
    (hc2 : ctor (some w2) = .ok inner2) :
    ∃ i1 i2 : BoundInstance W I,
      construct ctor ⟨w1, false⟩ none = (.ok i1, none) ∧
      construct ctor ⟨w2, false⟩ (construct ctor ⟨w1, false⟩ none).2
        = (.ok i2, none) ∧
      i1.windowAttr = w1 ∧ i2.windowAttr = w2 ∧
      i1.constructorRef = ⟨w1, false⟩ ∧ i2.constructorRef = ⟨w2, false⟩ := by
  refine ⟨⟨w1, ⟨w1, false⟩, inner1⟩, ⟨w2, ⟨w2, false⟩, inner2⟩, ?_, ?_, rfl,
    rfl, rfl, rfl⟩ <;>
    simp [construct, hc1, hc2, restoreProto]

/-- Witness for C2 at a concrete shared class: a constructor that records
the context it read, run under windows `1` and then `2` starting from an
absent transient attribute. -/
theorem construct_two_windows_context_identity_witness :
    ∃ i1 i2 : BoundInstance Nat (Option Nat),
      construct (E := Unit) (fun o => Except.ok o) ⟨1, false⟩ none
        = (.ok i1, none) ∧
      construct (E := Unit) (fun o => Except.ok o) ⟨2, false⟩
          (construct (E := Unit) (fun o => Except.ok o) ⟨1, false⟩ none).2
        = (.ok i2, none) ∧
      i1.windowAttr = 1 ∧ i2.windowAttr = 2 ∧
      i1.constructorRef = ⟨1, false⟩ ∧ i2.constructorRef = ⟨2, false⟩ :=
  construct_two_windows_context_identity
    (E := Unit) (fun o => Except.ok o) 1 2 (some 1) (some 2) rfl rfl

/-- C8: for a class bound with the permanent read override
(`setStaticWindow = true`, as `Response` and `AbortSignal` are in
`WindowContextClassExtender.extendClasses`), reading the window symbol on
the window-scoped proxy returns the proxy's window for every state of the
shared definition's own static window attribute. -/
theorem proxy_static_window_get_permanent {W : Type} (p : WindowProxy W)
    (sharedStatic : Option W) (h : p.setStaticWindow = true) :
    proxyStaticWindowGet p sharedStatic = some p.window := by
  simp [proxyStaticWindowGet, h]

/-- Witness for C8: a proxy for window `7` with the flag set, read against
a shared static attribute later mutated to window `9`. -/
theorem proxy_static_window_get_permanent_witness :
    proxyStaticWindowGet (⟨7, true⟩ : WindowProxy Nat) (some 9) = some 7 :=
  proxy_static_window_get_permanent ⟨7, true⟩ (some 9) rfl

/-! ## Claims about `Storage` -/

/-- C4: after `setItem('length', 'x')` the pair is stored under key
`'length'` in the internal data map, the store's own `length` property is
not shadowed (the proxy still resolves `length` to the own getter, which
reports the number of stored entries, and the other five fixed names still
resolve to the store's own bound methods), and `getItem('length')` returns
`'x'`. -/
theorem storage_setItem_length_does_not_shadow
    (d : List (String × String)) :
    assocLookup (storageSetItem d "length" "x") "length" = some "x" ∧
      storageProxyGet (storageSetItem d "length" "x") "length"
        = .ownValue (storageLength (storageSetItem d "length" "x")) ∧
      storageLength (storageSetItem d "length" "x")
        = (storageSetItem d "length" "x").length ∧
      storageProxyGet (storageSetItem d "length" "x") "key"
        = .boundMethod .key ∧
      storageProxyGet (storageSetItem d "length" "x") "getItem"
        = .boundMethod .getItem ∧
      storageProxyGet (storageSetItem d "length" "x") "setItem"
        = .boundMethod .setItem ∧
      storageProxyGet (storageSetItem d "length" "x") "removeItem"
        = .boundMethod .removeItem ∧
      storageProxyGet (storageSetItem d "length" "x") "clear"
        = .boundMethod .clear ∧
      storageGetItem (storageSetItem d "length" "x") "length"
        = some (.str "x") := by
  have hset : storageSetItem d "length" "x" = assocUpsert d "length" "x" := by
    unfold storageSetItem
    rw [if_neg (by decide)]
  rw [hset]
  refine ⟨assocLookup_assocUpsert_self d "length" "x", ?_, ?_, ?_, ?_, ?_, ?_,
    ?_, ?_⟩
  · rfl
  · exact length_objectKeys _
  · rfl
  · rfl
  · rfl
  · rfl
  · rfl
  · unfold storageGetItem
    rw [assocLookup_assocUpsert_self]

/-- Counterexample to C7: on an empty store, `getItem('toString')` — a
name with no stored entry — returns the `toString` member the plain data
object inherits from `Object.prototype` (which is not `undefined`), not
`null`. -/
theorem storage_getItem_inherited_counterexample :
    storageGetItem [] "toString" = some (.protoMember "toString") ∧
      storageGetItem [] "toString" ≠ none := by
  constructor
  · rfl
  · intro h
    simp [storageGetItem, assocLookup, objectProtoMembers] at h

/-- C7 as amended: `getItem` of a name with no stored entry returns `null`
provided the name is not one of the members the plain data object inherits
from `Object.prototype` (for such a name the inherited member is returned
instead), and `key(index)` at a negative index or an index at or beyond
the entry count returns `null`; both are total (the embedding returns a
value on every input, never an error). -/
theorem storage_absent_and_out_of_range_reads_null
    (d : List (String × String)) (name : String) (i : Int)
    (hname : assocLookup d name = none)
    (hproto : name ∉ objectProtoMembers)
    (hi : i < 0 ∨ (storageLength d : Int) ≤ i) :
    storageGetItem d name = none ∧ storageKey d i = none := by
  constructor
  · unfold storageGetItem
    rw [hname, if_neg hproto]
  unfold storageKey
  rcases hi with h | h
  · simp [h]
  · have h0 : ¬ i < 0 := by
      have : (0 : Int) ≤ (storageLength d : Int) := Int.ofNat_nonneg _
      omega
    simp only [h0, if_false]
    refine List.get?_eq_none.mpr ?_
    have : (storageLength d : Int) = ((objectKeys d).length : Int) := rfl
    omega

/-- Witness for the amended C7: a one-entry store read at an absent,
non-inherited name and at the out-of-range index `5`. -/
theorem storage_absent_and_out_of_range_reads_null_witness :
    storageGetItem [("a", "1")] "b" = none ∧
      storageKey [("a", "1")] 5 = none :=
  storage_absent_and_out_of_range_reads_null [("a", "1")] "b" 5
    (by decide) (by decide) (by right; decide)

/-- C10: a dynamic property write through the proxy whose property name is
one of the store's own fixed members is silently dropped — the `set` trap
reports success while the internal data map is left unchanged. -/
theorem storage_proxy_set_own_member_dropped
    (d : List (String × String)) (p v : String)
    (h : (ownMemberOf p).isSome) :
    storageProxySet d p v = (d, true) := by
  simp [storageProxySet, h]

/-- Witness for C10: writing `storage['length'] = 'x'` through the proxy
leaves a one-entry store unchanged and reports success. -/
theorem storage_proxy_set_own_member_dropped_witness :
    storageProxySet [("a", "1")] "length" "x" = ([("a", "1")], true) :=
  storage_proxy_set_own_member_dropped [("a", "1")] "length" "x" (by decide)

/-! ## Claims about the lazily-allocated containers -/

/-- A fresh `NodeCache`: every field starts `null`. -/
def NodeCache.empty {R : Type} : NodeCache R :=
  { querySelector := none, querySelectorAll := none, matchesMap := none,
    elementsByTagName := none, elementsByTagNameNS := none,
    elementByTagName := none, elementById := none, computedStyle := none }

/-- A fresh `LazyListenerMap`: both fields start `null`. -/
def LazyListenerMap.empty {L : Type} : LazyListenerMap L :=
  { capturing := none, bubbling := none }

/-- Counterexample to C3: `LazyListenerMap.clear` (the listener container
of an event target) empties an allocated capturing map but retains it as
an empty `Map` instead of setting the field back to `null`. -/
theorem lazy_listener_map_clear_retains_empty_map :
    (LazyListenerMap.clear
        { capturing := some [("click", [0])], bubbling := none }
      : LazyListenerMap Nat).capturing = some [] ∧
    (LazyListenerMap.clear
        { capturing := some [("click", [0])], bubbling := none }
      : LazyListenerMap Nat).capturing ≠ none := by
  constructor
  · rfl
  · simp [LazyListenerMap.clear]

/-- C3 as amended: the internal `Map` fields of all three lazily-allocated
containers start absent; the attribute store's three views and a node's
query-cache maps are set back to absent by their clear operations; the
event-target listener container's clear instead empties each allocated map
in place, keeping the field non-null whenever it was allocated. -/
theorem lazy_containers_clear_release {K A R L : Type}
    (d : LazyNamedNodeMapData K A) (c : NodeCache R) (m : LazyListenerMap L) :
    ((LazyNamedNodeMapData.empty : LazyNamedNodeMapData K A).items = none ∧
      (LazyNamedNodeMapData.empty : LazyNamedNodeMapData K A).itemsByName
        = none ∧
      (LazyNamedNodeMapData.empty
          : LazyNamedNodeMapData K A).itemsByNamespaceURI = none) ∧
    ((NodeCache.empty : NodeCache R).querySelector = none ∧
      (NodeCache.empty : NodeCache R).querySelectorAll = none ∧
      (NodeCache.empty : NodeCache R).matchesMap = none ∧
      (NodeCache.empty : NodeCache R).elementsByTagName = none ∧
      (NodeCache.empty : NodeCache R).elementsByTagNameNS = none ∧
      (NodeCache.empty : NodeCache R).elementByTagName = none ∧
      (NodeCache.empty : NodeCache R).elementById = none) ∧
    ((LazyListenerMap.empty : LazyListenerMap L).capturing = none ∧
      (LazyListenerMap.empty : LazyListenerMap L).bubbling = none) ∧
    (d.clear.items = none ∧ d.clear.itemsByName = none ∧
      d.clear.itemsByNamespaceURI = none) ∧
    (c.clear.querySelector = none ∧ c.clear.querySelectorAll = none ∧
      c.clear.matchesMap = none ∧ c.clear.elementsByTagName = none ∧
      c.clear.elementsByTagNameNS = none ∧ c.clear.elementByTagName = none ∧
      c.clear.elementById = none ∧ c.clear.computedStyle = none) ∧
    (m.clear.capturing = m.capturing.map (fun _ => []) ∧
      m.clear.bubbling = m.bubbling.map (fun _ => [])) := by
  refine ⟨⟨rfl, rfl, rfl⟩, ⟨rfl, rfl, rfl, rfl, rfl, rfl, rfl⟩, ⟨rfl, rfl⟩,
    ?_, ?_, ?_⟩
  · cases hi : d.items <;> cases hn : d.itemsByName <;>
      cases hu : d.itemsByNamespaceURI <;>
      simp [LazyNamedNodeMapData.clear, hi, hn, hu]
  · refine ⟨?_, ?_, ?_, ?_, ?_, ?_, ?_, rfl⟩ <;>
      simp [NodeCache.clear, clearCacheField] <;>
      first
        | (cases c.querySelector <;> simp)
        | (cases c.querySelectorAll <;> simp)
        | (cases c.matchesMap <;> simp)
        | (cases c.elementsByTagName <;> simp)
        | (cases c.elementsByTagNameNS <;> simp)
        | (cases c.elementByTagName <;> simp)
        | (cases c.elementById <;> simp)
  · cases hc : m.capturing <;> cases hb : m.bubbling <;>
      simp [LazyListenerMap.clear, hc, hb]

/-! ## Insertion order of `Storage.key` -/

/-- A step of a `Storage` mutation history. -/
inductive StorageOp : Type
  | setI (k v : String)
  | removeI (k : String)

/-- The key name an operation touches. -/
def storageOpKey : StorageOp → String
  | .setI k _ => k
  | .removeI k => k

/-- Run a history of `setItem` / `removeItem` operations over a data
object. -/
def applyStorageOps : List StorageOp → List (String × String) →
    List (String × String)
  | [], d => d
  | .setI k v :: rest, d => applyStorageOps rest (storageSetItem d k v)
  | .removeI k :: rest, d => applyStorageOps rest (storageRemoveItem d k)

theorem mem_map_fst_assocUpsert {α β : Type} [DecidableEq α]
    (l : List (α × β)) (k : α) (v : β) (k' : α)
    (h : k' ∈ (assocUpsert l k v).map Prod.fst) :
    k' ∈ l.map Prod.fst ∨ k' = k := by
  induction l with
  | nil => simp [assocUpsert] at h; simp [h]
  | cons hd tl ih =>
    by_cases heq : hd.1 = k
    · simp [assocUpsert, heq] at h
      rcases h with h | h
      · simp [h]
      · simp [h]
    · simp [assocUpsert, heq] at h
      rcases h with h | h
      · simp [h]
      · rcases ih (by simpa using h) with h' | h'
        · simp [h']
        · simp [h']

theorem mem_map_fst_assocDelete {α β : Type} [DecidableEq α]
    (l : List (α × β)) (k : α) (k' : α)
    (h : k' ∈ (assocDelete l k).map Prod.fst) :
    k' ∈ l.map Prod.fst := by
  induction l with
  | nil => simp [assocDelete] at h
  | cons hd tl ih =>
    by_cases heq : hd.1 = k
    · simp [assocDelete, heq] at h
      simp [h]
    · simp [assocDelete, heq] at h
      rcases h with h | h
      · simp [h]
      · simp [ih (by simpa using h)]

theorem objectKeys_eq_of_no_index (d : List (String × String))
    (h : ∀ k ∈ d.map Prod.fst, isCanonicalIndex k = false) :
    objectKeys d = d.map Prod.fst := by
  unfold objectKeys
  have h1 : (d.map Prod.fst).filter (fun k => isCanonicalIndex k) = [] := by
    rw [List.filter_eq_nil_iff]
    intro a ha
    simp [h a ha]
  have h2 : (d.map Prod.fst).filter (fun k => !isCanonicalIndex k)
      = d.map Prod.fst := by
    rw [List.filter_eq_self]
    intro a ha
    simp [h a ha]
  simp [h1, h2, sortIndexKeys]

theorem mem_map_fst_storageSetItem (d : List (String × String))
    (k v k' : String)
    (h : k' ∈ (storageSetItem d k v).map Prod.fst) :
    k' ∈ d.map Prod.fst ∨ k' = k := by
  unfold storageSetItem at h
  split at h
  · exact Or.inl h
  · exact mem_map_fst_assocUpsert d k v k' h

theorem applyStorageOps_no_index_keys (ops : List StorageOp)
    (d : List (String × String))
    (hd : ∀ k ∈ d.map Prod.fst, isCanonicalIndex k = false)
    (hops : ∀ op ∈ ops, isCanonicalIndex (storageOpKey op) = false) :
    ∀ k ∈ (applyStorageOps ops d).map Prod.fst,
      isCanonicalIndex k = false := by
  induction ops generalizing d with
  | nil => exact hd
  | cons op rest ih =>
    cases op with
    | setI k v =>
      refine ih (storageSetItem d k v) ?_ (fun o ho => hops o (by simp [ho]))
      intro k' hk'
      rcases mem_map_fst_storageSetItem d k v k' hk' with h | h
      · exact hd k' h
      · subst h
        exact hops (.setI k' v) (by simp)
    | removeI k =>
      refine ih (storageRemoveItem d k) ?_ (fun o ho => hops o (by simp [ho]))
      intro k' hk'
      exact hd k' (mem_map_fst_assocDelete d k k' hk')

/-- Counterexample to C5: after `setItem('b','x')` then `setItem('0','y')`
the key first inserted is `'b'`, yet `key(0)` returns `'0'` — the backing
plain object enumerates the canonical array-index key `'0'` before the
earlier-inserted `'b'`, so `key` does not follow first-insertion order
when numeric-like key names are stored. -/
theorem storage_key_numeric_counterexample :
    (applyStorageOps [.setI "b" "x", .setI "0" "y"] []).map Prod.fst
      = ["b", "0"] ∧
    storageKey (applyStorageOps [.setI "b" "x", .setI "0" "y"] []) 0
      = some "0" ∧
    storageKey (applyStorageOps [.setI "b" "x", .setI "0" "y"] []) 0
      ≠ some "b" := by
  refine ⟨by decide, by decide, by decide⟩

/-- C5 as amended: for every sequence of `setItem`/`removeItem` operations
none of whose key names is a canonical array index, `key(index)` returns
the stored key name at position `index` in the order the stored entries
were first created, for every valid index, and `null` when `index` is at
or beyond the number of stored entries (canonical array-index keys would
instead be enumerated first, in ascending numeric order; a `setItem` under
the key `'__proto__'` stores no entry at all, the plain backing object's
inherited accessor swallowing the write). -/
theorem storage_key_insertion_order (ops : List StorageOp) (i : Nat)
    (hops : ∀ op ∈ ops, isCanonicalIndex (storageOpKey op) = false) :
    storageKey (applyStorageOps ops []) (Int.ofNat i)
      = ((applyStorageOps ops []).map Prod.fst).get? i := by
  have hkeys := applyStorageOps_no_index_keys ops [] (by simp) hops
  unfold storageKey
  rw [objectKeys_eq_of_no_index _ hkeys]
  simp

/-- Witness for the amended C5: inserting `'b'` then `'a'`, `key(0)` is
the first-inserted key `'b'`. -/
theorem storage_key_insertion_order_witness :
    storageKey (applyStorageOps [.setI "b" "x", .setI "a" "y"] [])
        (Int.ofNat 0) = some "b" :=
  (storage_key_insertion_order [.setI "b" "x", .setI "a" "y"] 0
      (by decide)).trans (by decide)

/-! ## Claims about `StringUtility` -/

theorem assocLookup_mem {α β : Type} [DecidableEq α]
    (l : List (α × β)) (k : α) (v : β)
    (h : assocLookup l k = some v) : (k, v) ∈ l := by
  induction l with
  | nil => simp [assocLookup] at h
  | cons hd tl ih =>
    rcases hd with ⟨k', v'⟩
    by_cases heq : k' = k
    · subst heq
      simp [assocLookup] at h
      simp [h]
    · simp [assocLookup, heq] at h
      simp [ih h]

theorem mem_assocDelete {α β : Type} [DecidableEq α]
    (l : List (α × β)) (k : α) (e : α × β)
    (h : e ∈ assocDelete l k) : e ∈ l := by
  induction l with
  | nil => simp [assocDelete] at h
  | cons hd tl ih =>
    rcases hd with ⟨k', v'⟩
    by_cases heq : k' = k
    · simp [assocDelete, heq] at h
      simp [h]
    · simp [assocDelete, heq] at h
      rcases h with h | h
      · simp [h]
      · simp [ih h]

/-- Every cache entry maps a key to the pure per-character image of that
key: the states reachable by any history of calls, hits and evictions. -/
def CacheWF (f : Char → Char) (cache : CaseCache) : Prop :=
  ∀ e ∈ cache, e.2 = e.1.map f

theorem cacheWF_memoCaseRun (f : Char → Char) (c : CaseCache)
    (t : List Char) (hwf : CacheWF f c) :
    CacheWF f (memoCaseRun f c t).2 := by
  unfold memoCaseRun
  cases hl : assocLookup c t with
  | some cached =>
    intro e he
    simp only at he
    rcases List.mem_append.mp he with h | h
    · exact hwf e (mem_assocDelete c t e h)
    · simp at h
      subst h
      exact hwf (t, cached) (assocLookup_mem c t cached hl)
  | none =>
    intro e he
    simp only at he
    rcases List.mem_append.mp he with h | h
    · have hmem : e ∈ c := by
        split at h
        · exact List.mem_of_mem_drop h
        · exact h
      exact hwf e hmem
    · simp at h
      subst h
      rfl

theorem memoCaseRun_fst (f : Char → Char) (c : CaseCache) (t : List Char)
    (hwf : CacheWF f c) :
    (memoCaseRun f c t).1 = t.map f := by
  unfold memoCaseRun
  cases hl : assocLookup c t with
  | some cached => exact hwf (t, cached) (assocLookup_mem c t cached hl)
  | none => rfl

theorem cacheWF_memoCaseHistory (f : Char → Char)
    (hist : List (List Char)) (c : CaseCache) (hwf : CacheWF f c) :
    CacheWF f (memoCaseHistory f hist c) := by
  induction hist generalizing c with
  | nil => exact hwf
  | cons t rest ih => exact ih _ (cacheWF_memoCaseRun f c t hwf)

theorem char_toNat_ofNat (n : Nat) (h : n.isValidChar) :
    (Char.ofNat n).toNat = n := by
  simp [Char.ofNat, h, Char.toNat, Char.ofNatAux, UInt32.toNat,
    UInt32.ofNatCore]

theorem asciiLowerChar_toNat (c : Char) :
    (asciiLowerChar c).toNat
      = if 65 ≤ c.toNat ∧ c.toNat ≤ 90 then c.toNat + 32 else c.toNat := by
  by_cases h : 65 ≤ c.toNat ∧ c.toNat ≤ 90
  · have hv : (c.toNat + 32).isValidChar := Or.inl (by omega)
    simp [asciiLowerChar, h, char_toNat_ofNat (c.toNat + 32) hv]
  · simp [asciiLowerChar, h]

theorem asciiUpperChar_toNat (c : Char) :
    (asciiUpperChar c).toNat
      = if 97 ≤ c.toNat ∧ c.toNat ≤ 122 then c.toNat - 32 else c.toNat := by
  by_cases h : 97 ≤ c.toNat ∧ c.toNat ≤ 122
  · have hv : (c.toNat - 32).isValidChar := Or.inl (by omega)
    simp [asciiUpperChar, h, char_toNat_ofNat (c.toNat - 32) hv]
  · simp [asciiUpperChar, h]

/-- C9: for every input and every cache state arising from any history of
prior calls (hits, misses and evictions included), `asciiLowerCase`
returns exactly the input with each code in 65..90 replaced by the code 32
higher, `asciiUpperCase` symmetrically replaces codes 97..122 by codes 32
lower, an immediately repeated call returns the same result, and the
per-character transformations act as stated code-wise. -/
theorem string_utility_ascii_case_correct
    (histL histU : List (List Char)) (text : List Char) :
    (asciiLowerCase (memoCaseHistory asciiLowerChar histL []) text).1
      = text.map asciiLowerChar ∧
    (asciiUpperCase (memoCaseHistory asciiUpperChar histU []) text).1
      = text.map asciiUpperChar ∧
    (asciiLowerCase
        (asciiLowerCase (memoCaseHistory asciiLowerChar histL []) text).2
        text).1
      = (asciiLowerCase (memoCaseHistory asciiLowerChar histL []) text).1 ∧
    (∀ c : Char, (asciiLowerChar c).toNat
      = if 65 ≤ c.toNat ∧ c.toNat ≤ 90 then c.toNat + 32 else c.toNat) ∧
    (∀ c : Char, (asciiUpperChar c).toNat
      = if 97 ≤ c.toNat ∧ c.toNat ≤ 122 then c.toNat - 32 else c.toNat) := by
  have hwfL : CacheWF asciiLowerChar (memoCaseHistory asciiLowerChar histL []) :=
    cacheWF_memoCaseHistory _ _ _ (by intro e he; simp at he)
  have hwfU : CacheWF asciiUpperChar (memoCaseHistory asciiUpperChar histU []) :=
    cacheWF_memoCaseHistory _ _ _ (by intro e he; simp at he)
  have h1 := memoCaseRun_fst asciiLowerChar _ text hwfL
  have h2 := memoCaseRun_fst asciiUpperChar _ text hwfU
  have hwfL2 := cacheWF_memoCaseRun asciiLowerChar _ text hwfL
  have h3 := memoCaseRun_fst asciiLowerChar _ text hwfL2
  exact ⟨h1, h2, h3.trans h1.symm, asciiLowerChar_toNat, asciiUpperChar_toNat⟩

/-! ## The three-view synchronization invariant of the attribute store -/

theorem presentInItems_attrRemove (p q : String) (s : AttrStore) :
    presentInItems p (attrRemove q s) ↔ presentInItems p s ∧ p ≠ q := by
  cases hi : s.items with
  | none => simp [presentInItems, attrRemove, hi]
  | some m =>
    simp only [presentInItems, attrRemove, hi, Option.map_some', Option.getD_some,
      List.mem_filter, decide_eq_true_eq]
    constructor
    · rintro ⟨e, ⟨hem, hne⟩, heq⟩
      exact ⟨⟨e, hem, heq⟩, heq ▸ hne⟩
    · rintro ⟨⟨e, hem, heq⟩, hpq⟩
      exact ⟨e, ⟨hem, heq ▸ hpq⟩, heq⟩

theorem presentInByNamespaceURI_attrRemove (p q : String) (s : AttrStore) :
    presentInByNamespaceURI p (attrRemove q s) ↔
      presentInByNamespaceURI p s ∧ p ≠ q := by
  cases hi : s.itemsByNamespaceURI with
  | none => simp [presentInByNamespaceURI, attrRemove, hi]
  | some m =>
    simp only [presentInByNamespaceURI, attrRemove, hi, Option.map_some',
      Option.getD_some, List.mem_filter, decide_eq_true_eq]
    constructor
    · rintro ⟨e, ⟨hem, hne⟩, heq⟩
      exact ⟨⟨e, hem, heq⟩, heq ▸ hne⟩
    · rintro ⟨⟨e, hem, heq⟩, hpq⟩
      exact ⟨e, ⟨hem, heq ▸ hpq⟩, heq⟩

theorem presentInByName_attrRemove (p q : String) (s : AttrStore) :
    presentInByName p (attrRemove q s) ↔ presentInByName p s ∧ p ≠ q := by
  cases hi : s.itemsByName with
  | none => simp [presentInByName, attrRemove, hi]
  | some m =>
    simp only [presentInByName, attrRemove, hi, Option.map_some',
      Option.getD_some, bucketsRemove, List.mem_map, List.mem_filter,
      decide_eq_true_eq]
    constructor
    · rintro ⟨b', ⟨b, hbm, hbeq⟩, a, ham, haq⟩
      subst hbeq
      simp only [List.mem_filter, decide_eq_true_eq] at ham
      exact ⟨⟨b, hbm, a, ham.1, haq⟩, haq ▸ ham.2⟩
    · rintro ⟨⟨b, hbm, a, ham, haq⟩, hpq⟩
      exact ⟨(b.1, b.2.filter (fun x => x.qualifiedName ≠ q)), ⟨b, hbm, rfl⟩,
        a, List.mem_filter.mpr ⟨ham, by simp [haq ▸ hpq]⟩, haq⟩

theorem exists_mem_bucketsAdd (a : AttrRec)
    (m : List (String × List AttrRec)) (p : String) :
    (∃ b ∈ bucketsAdd a m, ∃ x ∈ b.2, x.qualifiedName = p) ↔
      a.qualifiedName = p ∨ ∃ b ∈ m, ∃ x ∈ b.2, x.qualifiedName = p := by
  induction m with
  | nil => simp [bucketsAdd]
  | cons b rest ih =>
    by_cases hb : b.1 = a.localName
    · simp only [bucketsAdd, hb, if_true, List.mem_cons]
      constructor
      · rintro ⟨b', hb', x, hx, hxq⟩
        rcases hb' with hb' | hb'
        · subst hb'
          simp only [List.mem_append, List.mem_singleton] at hx
          rcases hx with hx | hx
          · exact Or.inr ⟨b, Or.inl rfl, x, hx, hxq⟩
          · subst hx
            exact Or.inl hxq
        · exact Or.inr ⟨b', Or.inr hb', x, hx, hxq⟩
      · rintro (hq | ⟨b', hb', x, hx, hxq⟩)
        · exact ⟨(a.localName, b.2 ++ [a]), Or.inl rfl, a, by simp, hq⟩
        · rcases hb' with hb' | hb'
          · subst hb'
            exact ⟨(a.localName, b'.2 ++ [a]), Or.inl rfl, x, by simp [hx], hxq⟩
          · exact ⟨b', Or.inr hb', x, hx, hxq⟩
    · simp only [bucketsAdd, hb, if_false, List.mem_cons]
      constructor
      · rintro ⟨b', hb', x, hx, hxq⟩
        rcases hb' with hb' | hb'
        · exact Or.inr ⟨b', Or.inl hb', x, hx, hxq⟩
        · rcases ih.mp ⟨b', hb', x, hx, hxq⟩ with h | ⟨b'', hb'', y, hy, hyq⟩
          · exact Or.inl h
          · exact Or.inr ⟨b'', Or.inr hb'', y, hy, hyq⟩
      · rintro (hq | ⟨b', hb', x, hx, hxq⟩)
        · rcases ih.mpr (Or.inl hq) with ⟨b', hb', x, hx, hxq⟩
          exact ⟨b', Or.inr hb', x, hx, hxq⟩
        · rcases hb' with hb' | hb'
          · exact ⟨b', Or.inl hb', x, hx, hxq⟩
          · rcases ih.mpr (Or.inr ⟨b', hb', x, hx, hxq⟩) with
              ⟨b'', hb'', y, hy, hyq⟩
            exact ⟨b'', Or.inr hb'', y, hy, hyq⟩

theorem presentInItems_attrSet (p : String) (a : AttrRec) (s : AttrStore) :
    presentInItems p (attrSet a s) ↔
      p = a.qualifiedName ∨
        (presentInItems p s ∧ p ≠ a.qualifiedName) := by
  have hrem := presentInItems_attrRemove p a.qualifiedName s
  simp only [presentInItems, attrSet, Option.getD_some, List.mem_append,
    List.mem_singleton] at hrem ⊢
  constructor
  · rintro ⟨e, he, heq⟩
    rcases he with he | he
    · exact Or.inr (hrem.mp ⟨e, he, heq⟩)
    · subst he
      exact Or.inl heq.symm
  · rintro (hq | hpres)
    · exact ⟨(a.qualifiedName, a), Or.inr rfl, hq.symm⟩
    · rcases hrem.mpr hpres with ⟨e, he, heq⟩
      exact ⟨e, Or.inl he, heq⟩

theorem presentInByNamespaceURI_attrSet (p : String) (a : AttrRec)
    (s : AttrStore) :
    presentInByNamespaceURI p (attrSet a s) ↔
      p = a.qualifiedName ∨
        (presentInByNamespaceURI p s ∧ p ≠ a.qualifiedName) := by
  have hrem := presentInByNamespaceURI_attrRemove p a.qualifiedName s
  simp only [presentInByNamespaceURI, attrSet, Option.getD_some,
    List.mem_append, List.mem_singleton] at hrem ⊢
  constructor
  · rintro ⟨e, he, heq⟩
    rcases he with he | he
    · exact Or.inr (hrem.mp ⟨e, he, heq⟩)
    · subst he
      exact Or.inl heq.symm
  · rintro (hq | hpres)
    · exact ⟨(nsKey a, a), Or.inr rfl, hq.symm⟩
    · rcases hrem.mpr hpres with ⟨e, he, heq⟩
      exact ⟨e, Or.inl he, heq⟩

theorem presentInByName_attrSet (p : String) (a : AttrRec) (s : AttrStore) :
    presentInByName p (attrSet a s) ↔
      p = a.qualifiedName ∨
        (presentInByName p s ∧ p ≠ a.qualifiedName) := by
  have hrem := presentInByName_attrRemove p a.qualifiedName s
  have hadd := exists_mem_bucketsAdd a
    ((attrRemove a.qualifiedName s).itemsByName.getD []) p
  simp only [presentInByName, attrSet, Option.getD_some] at hrem hadd ⊢
  rw [hadd]
  constructor
  · rintro (hq | hpres)
    · exact Or.inl hq.symm
    · exact Or.inr (hrem.mp hpres)
  · rintro (hq | hpres)
    · exact Or.inl hq.symm
    · exact Or.inr (hrem.mpr hpres)

theorem attrStoreInv_attrSet (a : AttrRec) (s : AttrStore)
    (h : AttrStoreInv s) : AttrStoreInv (attrSet a s) := by
  intro q
  rw [presentInItems_attrSet, presentInByName_attrSet,
    presentInByNamespaceURI_attrSet]
  have hq := h q
  tauto

theorem attrStoreInv_attrRemove (q' : String) (s : AttrStore)
    (h : AttrStoreInv s) : AttrStoreInv (attrRemove q' s) := by
  intro q
  rw [presentInItems_attrRemove, presentInByName_attrRemove,
    presentInByNamespaceURI_attrRemove]
  have hq := h q
  tauto

theorem attrStoreInv_clear (s : AttrStore) :
    AttrStoreInv (LazyNamedNodeMapData.clear s) := by
  intro q
  cases hi : s.items <;> cases hn : s.itemsByName <;>
    cases hu : s.itemsByNamespaceURI <;>
    simp [AttrStoreInv, presentInItems, presentInByName,
      presentInByNamespaceURI, LazyNamedNodeMapData.clear, hi, hn, hu]

theorem attrStoreInv_applyAttrOps (ops : List AttrOp) (s : AttrStore)
    (h : AttrStoreInv s) : AttrStoreInv (applyAttrOps ops s) := by
  induction ops generalizing s with
  | nil => exact h
  | cons op rest ih =>
    cases op with
    | set a => exact ih _ (attrStoreInv_attrSet a s h)
    | remove q => exact ih _ (attrStoreInv_attrRemove q s h)
    | clear => exact ih _ (attrStoreInv_clear s)

/-- C6 (operations modelled from the spec): after every finite sequence of
attribute set/remove/clear operations starting from a fresh store, a name
is present in the qualified-name view iff a corresponding entry exists in
the by-local-name view and in the by-namespace-URI view; and `clear`
(taken from the source) empties the three views together, setting all
three fields back to absent. -/
theorem attr_store_three_view_sync (ops : List AttrOp) (s : AttrStore) :
    AttrStoreInv (applyAttrOps ops LazyNamedNodeMapData.empty) ∧
    ((LazyNamedNodeMapData.clear s).items = none ∧
      (LazyNamedNodeMapData.clear s).itemsByName = none ∧
      (LazyNamedNodeMapData.clear s).itemsByNamespaceURI = none) := by
  constructor
  · refine attrStoreInv_applyAttrOps ops _ ?_
    intro q
    simp [presentInItems, presentInByName, presentInByNamespaceURI,
      LazyNamedNodeMapData.empty]
  · cases hi : s.items <;> cases hn : s.itemsByName <;>
      cases hu : s.itemsByNamespaceURI <;>
      simp [LazyNamedNodeMapData.clear, hi, hn, hu]
